import Mathlib

/- Shallow embedding of the hybrid smart-search pipeline implemented in
src/pages/api/smart-search.ts.

Modelling conventions:
- JavaScript strings are modelled as lists of characters (abbreviation Str).
  Character classes follow the ASCII ranges used by the source regexes.
- JavaScript numbers are modelled as real numbers.  Values that may be null or
  undefined are modelled as Option; the NaN guards of the source collapse into
  the none case because NaN is not representable in the real-number model, and
  the Number.isFinite guard of clamp01 always holds for a real number.
- Asynchronous database and network responses are modelled as per-invocation
  data (structure Backend): some rows means the call succeeded with an array
  of rows, none means it errored or returned a non-array payload.
- The JavaScript Map used for candidate merging preserves insertion order and
  keeps the position of an existing key on update; it is modelled as a list of
  rows with mapGet and mapSet.
-/

abbrev Str := List Char

/-- Word characters of the JavaScript regex class backslash-w: ASCII letters,
digits and underscore. -/
def isWordChar (c : Char) : Bool :=
  ('A' ≤ c && c ≤ 'Z') || ('a' ≤ c && c ≤ 'z') || ('0' ≤ c && c ≤ '9') || c == '_'

/-- Uppercase ASCII letters, the character class A-Z of the proper-noun regex. -/
def isUpperAZ (c : Char) : Bool := 'A' ≤ c && c ≤ 'Z'

/-- The apostrophe character (code point 39). -/
def apostropheChar : Char := Char.ofNat 39

/-- Characters that may continue a matched word after its leading capital:
word characters, apostrophes and hyphens. -/
def isContChar (c : Char) : Bool := isWordChar c || c == apostropheChar || c == '-'

/-- Whitespace, modelling the JavaScript regex class backslash-s. -/
def isSpaceChar (c : Char) : Bool := c.isWhitespace

/-- Non-word characters that the trailing word-boundary forces the regex engine
to backtrack over: apostrophes and hyphens. -/
def isTrailChar (c : Char) : Bool := c == apostropheChar || c == '-'

/-- Backtracking of the trailing word-boundary of the proper-noun regex: the
greedy character class can end on an apostrophe or hyphen, where the final
boundary fails, so trailing such characters are dropped until the match ends
on a word character. -/
def stripTrail (s : Str) : Str := (s.reverse.dropWhile isTrailChar).reverse

mutual

/-- Scanner state outside a match for the global proper-noun regex.  The flag
records whether the previous character was a word character, which decides the
leading word-boundary; a match can only start at an uppercase letter preceded
by a non-word character (or the start of the input). -/
def scanOut : Bool → List Char → List Str
  | _, [] => []
  | prevW, c :: rest =>
    if !prevW && isUpperAZ c then scanWord [c] rest
    else scanOut (isWordChar c) rest
termination_by _ l => 2 * l.length

/-- Scanner state inside a word of a match; accRev holds the characters
matched so far in reverse.  A whitespace character may start a further
capitalized word of the same match; any other non-continuation character ends
the match.  Characters dropped by stripTrail cannot start a new match and only
a non-uppercase character can follow them, so resuming with a word-character
context is faithful to rescanning from the true match end. -/
def scanWord (accRev : List Char) : List Char → List Str
  | [] => [stripTrail accRev.reverse]
  | c :: rest =>
    if isContChar c then scanWord (c :: accRev) rest
    else if isSpaceChar c then scanSpace accRev [c] rest
    else stripTrail accRev.reverse :: scanOut true (c :: rest)
termination_by l => 2 * l.length + 1

/-- Scanner state inside a whitespace run following a matched word; the run is
kept only when an uppercase letter follows (the group whitespace-then-capital
of the regex), otherwise the match ends before the whitespace. -/
def scanSpace (accRev spRev : List Char) : List Char → List Str
  | [] => [stripTrail accRev.reverse]
  | c :: rest =>
    if isSpaceChar c then scanSpace accRev (c :: spRev) rest
    else if isUpperAZ c then scanWord (c :: (spRev ++ accRev)) rest
    else stripTrail accRev.reverse :: scanOut true (c :: rest)
termination_by l => 2 * l.length + 1

end

/-- All matches of the global proper-noun regex on the input, in order. -/
def scanMatches (input : Str) : List Str := scanOut false input

/-- The stop-word set of extractProperNouns. -/
def stopWords : List Str :=
  [['I'], ['W', 'e'], ['U', 's'], ['Y', 'o', 'u'], ['H', 'e'], ['S', 'h', 'e'],
   ['T', 'h', 'e', 'y'], ['I', 't'], ['A'], ['A', 'n'], ['T', 'h', 'e'],
   ['A', 'n', 'd'], ['O', 'r'], ['B', 'u', 't']]

/-- Lowercasing, modelling String.prototype.toLowerCase on ASCII text. -/
def lowerStr (s : Str) : Str := s.map Char.toLower

/-- Trimming, modelling String.prototype.trim. -/
def trimStr (s : Str) : Str :=
  ((s.dropWhile isSpaceChar).reverse.dropWhile isSpaceChar).reverse

/-- One step of the deduplicating fold of extractProperNouns: the accumulator
is the insertion-ordered Map from lowercased form to first-seen casing. -/
def extractStep (acc : List (Str × Str)) (m : Str) : List (Str × Str) :=
  let trimmed := trimStr m
  if trimmed = [] ∨ trimmed ∈ stopWords then acc
  else
    let normalized := lowerStr trimmed
    if normalized ∈ acc.map Prod.fst then acc
    else acc ++ [(normalized, trimmed)]

/-- The proper-noun extractor: match capitalized runs, drop stop words, and
deduplicate by lowercase form keeping the first-seen casing. -/
def extractProperNouns (input : Str) : List Str :=
  ((scanMatches input).foldl extractStep []).map Prod.snd

/-- Specification-side description (spec section 4.1): deduplicate terms by
lowercase form, keeping the first-seen original casing; seen holds the
lowercase forms already emitted. -/
def dedupByLower (seen : List Str) : List Str → List Str
  | [] => []
  | t :: rest =>
    if lowerStr t ∈ seen then dedupByLower seen rest
    else t :: dedupByLower (lowerStr t :: seen) rest

/-- Specification-side description (spec section 4.1) of the extractor output:
trim every match, discard stop words (and empty strings), then deduplicate by
lowercase form keeping the first casing, in first-occurrence order. -/
def specProperNouns (input : Str) : List Str :=
  dedupByLower []
    (((scanMatches input).map trimStr).filter
      (fun t => decide (¬(t = [] ∨ t ∈ stopWords))))

/-- Lowercase ASCII letters and digits, the token characters of tokenize. -/
def isLowerAlnum (c : Char) : Bool := ('a' ≤ c && c ≤ 'z') || ('0' ≤ c && c ≤ '9')

/-- Splitting into maximal runs of token characters, modelling
split on the regex of one-or-more non-alphanumerics followed by
filter(Boolean); cur holds the current run in reverse. -/
def splitRunsGo : List Char → List Char → List Str
  | [], cur => if cur = [] then [] else [cur.reverse]
  | c :: rest, cur =>
    if isLowerAlnum c then splitRunsGo rest (c :: cur)
    else if cur = [] then splitRunsGo rest []
    else cur.reverse :: splitRunsGo rest []

/-- The tokenize helper: lowercase, split on non-alphanumeric runs, drop empty
pieces; null, undefined and the empty string yield no tokens. -/
def tokenize (value : Option Str) : List Str :=
  match value with
  | none => []
  | some s => splitRunsGo (lowerStr s) []

/-- First-occurrence deduplication, modelling Array.from applied to a Set. -/
def dedupFirst (l : List Str) : List Str :=
  l.foldl (fun acc t => if t ∈ acc then acc else acc ++ [t]) []

/-- Prefix test on character lists. -/
def hasPfx : Str → Str → Bool
  | _, [] => true
  | [], _ :: _ => false
  | c :: cs, d :: ds => c == d && hasPfx cs ds

/-- Substring test, modelling String.prototype.includes. -/
def hasSub : Str → Str → Bool
  | [], needle => needle.isEmpty
  | hay@(_ :: rest), needle => hasPfx hay needle || hasSub rest needle

/-- Joining with single spaces, modelling Array.prototype.join of one space. -/
def joinSpace : List Str → Str
  | [] => []
  | [s] => s
  | s :: rest => s ++ ' ' :: joinSpace rest

/-- A candidate row as retrieved from the data store (interface CandidateRow);
optional fields collapse null and undefined into none. -/
structure CandidateRow where
  id : Int
  title_name : Option Str := none
  summary : Option Str := none
  authors : Option Str := none
  pdf_url : Option Str := none
  cosine_similarity : Option ℝ := none
  similarity : Option ℝ := none
  bm25_rank : Option ℝ := none
  engagement_score : Option ℝ := none
  field_match_bonus : Option ℝ := none
  proper_noun_boost : Option ℝ := none
  embedding : Option (List ℝ) := none
  match_source : Option Str := none

/-- The five sub-scores reported in the breakdown of a scored result. -/
structure ScoreBreakdown where
  cosineSimilarity : ℝ
  bm25Rank : ℝ
  properNounBoost : ℝ
  fieldMatchBonus : ℝ
  engagementScore : ℝ

/-- A scored result (interface CombinedResult). -/
structure CombinedResult where
  id : Int
  title_name : Str
  authors : Str
  summary : Str
  pdf_url : Str
  finalScore : ℝ
  breakdown : ScoreBreakdown

/-- The context handed to the scoring engine (interface CombineContext). -/
structure CombineContext where
  query : Str
  properNouns : List Str
  limit : Option ℝ := none

/-- Clamping to the unit interval; in the real-number model the
Number.isFinite guard of the source always holds. -/
noncomputable def clamp01 (value : ℝ) : ℝ := min 1 (max 0 value)

/-- Normalisation of a raw cosine value: clamp to the interval from minus one
to one, then floor negative values to zero. -/
noncomputable def normaliseCosine (value : Option ℝ) : ℝ :=
  match value with
  | none => 0
  | some v =>
    let clamped := max (-1) (min 1 v)
    if clamped ≤ 0 then 0 else clamped

/-- Normalisation of a raw rank value via x over x plus one, after flooring
negatives to zero. -/
noncomputable def normaliseBm25 (value : Option ℝ) : ℝ :=
  match value with
  | none => 0
  | some v =>
    let safe := max 0 v
    safe / (safe + 1)

/-- Normalisation of the engagement signal: values above one are compressed by
the hyperbolic tangent of the value over five, capped at one. -/
noncomputable def normaliseEngagement (value : Option ℝ) : ℝ :=
  match value with
  | none => 0
  | some v =>
    let safe := max 0 v
    if 1 < safe then min 1 (Real.tanh (safe / 5)) else clamp01 safe

/-- Cosine similarity of two vectors; the source accumulates the dot product
and both squared norms in a single loop over equal-length arrays, modelled
here by zipWith and map sums. -/
noncomputable def computeCosineSimilarity (a b : Option (List ℝ)) : ℝ :=
  match a, b with
  | some la, some lb =>
    if la = [] ∨ lb = [] ∨ la.length ≠ lb.length then 0
    else
      let dot := (List.zipWith (fun x y => x * y) la lb).sum
      let normA := (la.map (fun x => x * x)).sum
      let normB := (lb.map (fun x => x * x)).sum
      if normA = 0 ∨ normB = 0 then 0
      else dot / (Real.sqrt normA * Real.sqrt normB)
  | _, _ => 0

/-- One field of the weighted lexical-score accumulation; the accumulator is
the pair of the weighted score and the total weight. -/
noncomputable def bm25Fold (tokens : List Str) (acc : ℝ × ℝ) (field : Option Str × ℝ) : ℝ × ℝ :=
  match field.1 with
  | none => acc
  | some text =>
    if text = [] then acc
    else
      let fieldTokens := tokenize (some text)
      if fieldTokens = [] then acc
      else
        let totalWeight := acc.2 + field.2
        let hits := (tokens.filter (fun t => decide (t ∈ fieldTokens))).length
        if hits = 0 then (acc.1, totalWeight)
        else
          let saturation := (hits : ℝ) / (tokens.length : ℝ)
          let lengthPenalty := Real.logb 2 ((fieldTokens.length : ℝ) + 1)
          (acc.1 + field.2 * (saturation / (if lengthPenalty = 0 then 1 else lengthPenalty)),
            totalWeight)

/-- Lexical score recomputed from the row text (computeBm25Score): weighted
per-field token-overlap with a logarithmic length penalty, scaled by one and
a half and clamped. -/
noncomputable def computeBm25Score (row : CandidateRow) (tokens : List Str) : ℝ :=
  if tokens = [] then 0
  else
    let fieldConfigs : List (Option Str × ℝ) :=
      [(row.title_name, 1.8), (row.summary, 1.2), (row.authors, 0.8)]
    let acc := fieldConfigs.foldl (bm25Fold tokens) (0, 0)
    if acc.2 = 0 then 0 else clamp01 ((acc.1 / acc.2) * 1.5)

/-- One field of the field-match-bonus accumulation. -/
noncomputable def fieldBonusFold (tokens : List Str) (acc : ℝ) (field : Option Str × ℝ) : ℝ :=
  match field.1 with
  | none => acc
  | some text =>
    if text = [] then acc
    else
      let lower := lowerStr text
      let hits := (tokens.filter (fun t => hasSub lower t)).length
      if hits = 0 then acc
      else acc + field.2 * ((hits : ℝ) / (tokens.length : ℝ))

/-- Field-match bonus (computeFieldMatchBonus): weighted fraction of query
tokens occurring as substrings of each field, clamped. -/
noncomputable def computeFieldMatchBonus (row : CandidateRow) (tokens : List Str) : ℝ :=
  if tokens = [] then 0
  else
    clamp01
      ([(row.title_name, (0.5 : ℝ)), (row.summary, 0.3), (row.authors, 0.2)].foldl
        (fieldBonusFold tokens) 0)

/-- Proper-noun boost (computeProperNounBoost): fraction of proper nouns found
in the concatenated lowercased fields, plus a flat bonus for a title hit,
clamped. -/
noncomputable def computeProperNounBoost (row : CandidateRow) (properNouns : List Str) : ℝ :=
  if properNouns = [] then 0
  else
    let parts := ([row.title_name, row.summary, row.authors].filterMap id).filter
      (fun s => !s.isEmpty)
    let haystack := lowerStr (joinSpace parts)
    if haystack = [] then 0
    else
      let hits := (properNouns.filter (fun noun => hasSub haystack noun)).length
      if hits = 0 then 0
      else
        let base := (hits : ℝ) / (properNouns.length : ℝ)
        let exactTitleHit :=
          match row.title_name with
          | some t => !t.isEmpty && properNouns.any (fun noun => hasSub (lowerStr t) noun)
          | none => false
        clamp01 (base + (if exactTitleHit then (0.1 : ℝ) else 0))

/-- Rounding to six decimal digits, modelling Number applied to toFixed(6). -/
noncomputable def round6 (x : ℝ) : ℝ := ((round (x * 1000000) : ℤ) : ℝ) / 1000000

/-- The vector sub-score of a row (the vectorScore binding of combineScores). -/
noncomputable def vectorScoreOf (row : CandidateRow) : ℝ :=
  normaliseCosine (some (row.cosine_similarity.getD (row.similarity.getD 0)))

/-- The lexical sub-score of a row (the computedBm25 binding of
combineScores): the normalized precomputed rank if positive, otherwise the
recomputed score. -/
noncomputable def lexicalScoreOf (queryTokens : List Str) (row : CandidateRow) : ℝ :=
  let bm25FromRow := normaliseBm25 row.bm25_rank
  if 0 < bm25FromRow then bm25FromRow else computeBm25Score row queryTokens

/-- The proper-noun sub-score of a row (the properNounScore binding of
combineScores). -/
noncomputable def properNounScoreOf (lowerProperNouns : List Str) (row : CandidateRow) : ℝ :=
  match row.proper_noun_boost with
  | some v => clamp01 v
  | none => computeProperNounBoost row lowerProperNouns

/-- The field-match sub-score of a row (the fieldBonus binding of
combineScores). -/
noncomputable def fieldBonusOf (queryTokens : List Str) (row : CandidateRow) : ℝ :=
  match row.field_match_bonus with
  | some v => clamp01 v
  | none => computeFieldMatchBonus row queryTokens

/-- The engagement sub-score of a row. -/
noncomputable def engagementOf (row : CandidateRow) : ℝ :=
  normaliseEngagement row.engagement_score

/-- The weighted composite score of a row (the totalScore binding of
combineScores). -/
noncomputable def totalScoreOf (queryTokens lowerProperNouns : List Str) (row : CandidateRow) : ℝ :=
  0.45 * vectorScoreOf row + 0.25 * lexicalScoreOf queryTokens row +
    0.15 * properNounScoreOf lowerProperNouns row + 0.10 * fieldBonusOf queryTokens row +
    0.05 * engagementOf row

/-- Scoring of a single candidate row into a CombinedResult. -/
noncomputable def scoreRow (queryTokens lowerProperNouns : List Str) (row : CandidateRow) :
    CombinedResult :=
  { id := row.id
    title_name := row.title_name.getD []
    authors := row.authors.getD []
    summary := row.summary.getD []
    pdf_url := row.pdf_url.getD []
    finalScore := round6 (totalScoreOf queryTokens lowerProperNouns row)
    breakdown :=
      { cosineSimilarity := round6 (vectorScoreOf row)
        bm25Rank := round6 (lexicalScoreOf queryTokens row)
        properNounBoost := round6 (properNounScoreOf lowerProperNouns row)
        fieldMatchBonus := round6 (fieldBonusOf queryTokens row)
        engagementScore := round6 (engagementOf row) } }

/-- The descending order on final scores used by the result sort. -/
def byScoreDesc (a b : CombinedResult) : Prop := b.finalScore ≤ a.finalScore

noncomputable instance : DecidableRel byScoreDesc :=
  fun a b => inferInstanceAs (Decidable (b.finalScore ≤ a.finalScore))

instance : IsTotal CombinedResult byScoreDesc :=
  ⟨fun a b => le_total b.finalScore a.finalScore⟩

instance : IsTrans CombinedResult byScoreDesc :=
  ⟨fun _ _ _ hab hbc => le_trans hbc hab⟩

/-- Truncation modelling Array.prototype.slice from index zero to a numeric
end argument, which is truncated toward zero and counts from the end when
negative. -/
noncomputable def jsSliceZeroTo {α : Type} (l : List α) (x : ℝ) : List α :=
  if 0 ≤ x then l.take ⌊x⌋₊
  else l.take (l.length - min l.length ⌊-x⌋₊)

/-- The scoring engine (combineScores): score every row, sort descending by
final score (Array.prototype.sort is stable, modelled by insertion sort) and
truncate to the limit, defaulting to twenty. -/
noncomputable def combineScores (rows : List CandidateRow) (context : CombineContext) :
    List CombinedResult :=
  let limit := context.limit.getD 20
  let queryTokens := dedupFirst (tokenize (some context.query))
  let lowerProperNouns := context.properNouns.map lowerStr
  let results := rows.map (scoreRow queryTokens lowerProperNouns)
  jsSliceZeroTo (List.insertionSort byScoreDesc results) limit

/-- The effective result limit computed by the handler: a finite positive
limit parameter is capped at fifty, anything else falls back to the default of
twenty.  The none case models a NaN or infinite Number value. -/
noncomputable def effectiveLimit (limitParam : Option ℝ) : ℝ :=
  match limitParam with
  | none => 20
  | some v => if 0 < v then min v 50 else 20

/-- The per-invocation responses of the data store, one per retrieval
strategy; none models an error or a non-array payload. -/
structure Backend where
  rpcSmart : Option (List CandidateRow) := none
  rpcVector : Option (List CandidateRow) := none
  vectorFallbackScan : Option (List CandidateRow) := none
  textSearch : Option (List CandidateRow) := none
  textPattern : Option (List CandidateRow) := none
  plainScan : Option (List CandidateRow) := none

/-- The parameters of querySupabase (interface QuerySupabaseParams). -/
structure QueryParams where
  embedding : Option (List ℝ) := none
  query : Str
  properNouns : List Str
  limit : Option ℝ := none

/-- Presence test for the query embedding: a non-null array of positive
length. -/
def hasQueryEmbedding (embedding : Option (List ℝ)) : Bool :=
  match embedding with
  | some l => !l.isEmpty
  | none => false

/-- Embedding sanitisation; the JSON-string branch of the source is modelled
by the already-parsed vector, and any non-vector payload by none. -/
def sanitizeEmbedding (value : Option (List ℝ)) : Option (List ℝ) :=
  match value with
  | some l => some l
  | none => none

/-- The candidate map, modelling the insertion-ordered JavaScript Map keyed by
record id. -/
abbrev CandMap := List CandidateRow

/-- Lookup by id, modelling Map.prototype.get. -/
def mapGet (m : CandMap) (i : Int) : Option CandidateRow :=
  m.find? (fun r => r.id == i)

/-- Update by id, modelling Map.prototype.set: an existing key keeps its
position, a new key is appended. -/
def mapSet (m : CandMap) (row : CandidateRow) : CandMap :=
  if m.any (fun r => r.id == row.id) then
    m.map (fun r => if r.id == row.id then row else r)
  else m ++ [row]

def srcRpc : Str := ['r', 'p', 'c']

def srcVector : Str := ['v', 'e', 'c', 't', 'o', 'r']

def srcVectorFallback : Str :=
  ['v', 'e', 'c', 't', 'o', 'r', '-', 'f', 'a', 'l', 'l', 'b', 'a', 'c', 'k']

def srcText : Str := ['t', 'e', 'x', 't']

def srcFallback : Str := ['f', 'a', 'l', 'l', 'b', 'a', 'c', 'k']

def plusVector : Str := ['+', 'v', 'e', 'c', 't', 'o', 'r']

def plusText : Str := ['+', 't', 'e', 'x', 't']

/-- Provenance concatenation: a truthy existing tag gets the suffix appended,
otherwise the base tag is used. -/
def appendSource (existing : Option Str) (suffix base : Str) : Str :=
  match existing with
  | some s => if s = [] then base else s ++ suffix
  | none => base

/-- Tagging of a row returned by the hybrid RPC: an absent provenance becomes
rpc, an existing one is preserved. -/
def tagRpcRow (row : CandidateRow) : CandidateRow :=
  { row with match_source := some (row.match_source.getD srcRpc) }

/-- Merge of one row of the vector-only RPC into the candidate map. -/
noncomputable def mergeVectorRow (embedding : Option (List ℝ)) (m : CandMap)
    (item : CandidateRow) : CandMap :=
  let existing := mapGet m item.id
  let sanitized :=
    sanitizeEmbedding (item.embedding.orElse (fun _ => existing.bind CandidateRow.embedding))
  let cosine : Option ℝ :=
    if sanitized.isSome && embedding.isSome then
      some (computeCosineSimilarity sanitized embedding)
    else
      (item.cosine_similarity.orElse (fun _ => item.similarity)).orElse
        (fun _ => existing.bind CandidateRow.cosine_similarity)
  mapSet m
    { id := item.id
      title_name := item.title_name.orElse (fun _ => existing.bind CandidateRow.title_name)
      summary := item.summary.orElse (fun _ => existing.bind CandidateRow.summary)
      authors := item.authors.orElse (fun _ => existing.bind CandidateRow.authors)
      pdf_url := item.pdf_url.orElse (fun _ => existing.bind CandidateRow.pdf_url)
      engagement_score :=
        item.engagement_score.orElse (fun _ => existing.bind CandidateRow.engagement_score)
      cosine_similarity := cosine
      similarity := none
      bm25_rank := existing.bind CandidateRow.bm25_rank
      field_match_bonus := existing.bind CandidateRow.field_match_bonus
      proper_noun_boost := existing.bind CandidateRow.proper_noun_boost
      embedding := sanitized
      match_source :=
        some (appendSource (existing.bind CandidateRow.match_source) plusVector srcVector) }

/-- Insertion of one row of the vector fallback scan into the candidate map. -/
noncomputable def vectorFallbackRow (embedding : Option (List ℝ)) (m : CandMap)
    (item : CandidateRow) : CandMap :=
  let sanitized := sanitizeEmbedding item.embedding
  mapSet m
    { id := item.id
      title_name := item.title_name
      summary := item.summary
      authors := item.authors
      pdf_url := item.pdf_url
      engagement_score := item.engagement_score
      cosine_similarity :=
        if sanitized.isSome && embedding.isSome then
          some (computeCosineSimilarity sanitized embedding)
        else none
      similarity := none
      bm25_rank := none
      field_match_bonus := none
      proper_noun_boost := none
      embedding := sanitized
      match_source := some srcVectorFallback }

/-- Merge of one row of the full-text (or pattern) search into the candidate
map. -/
noncomputable def textMergeRow (m : CandMap) (item : CandidateRow) : CandMap :=
  let existing := mapGet m item.id
  let sanitized :=
    sanitizeEmbedding (item.embedding.orElse (fun _ => existing.bind CandidateRow.embedding))
  mapSet m
    { id := item.id
      title_name := item.title_name.orElse (fun _ => existing.bind CandidateRow.title_name)
      summary := item.summary.orElse (fun _ => existing.bind CandidateRow.summary)
      authors := item.authors.orElse (fun _ => existing.bind CandidateRow.authors)
      pdf_url := item.pdf_url.orElse (fun _ => existing.bind CandidateRow.pdf_url)
      engagement_score :=
        item.engagement_score.orElse (fun _ => existing.bind CandidateRow.engagement_score)
      cosine_similarity := existing.bind CandidateRow.cosine_similarity
      similarity := none
      bm25_rank := existing.bind CandidateRow.bm25_rank
      field_match_bonus := existing.bind CandidateRow.field_match_bonus
      proper_noun_boost := existing.bind CandidateRow.proper_noun_boost
      embedding := sanitized
      match_source :=
        some (appendSource (existing.bind CandidateRow.match_source) plusText srcText) }

/-- Insertion of one row of the plain fallback scan into the candidate map. -/
noncomputable def plainFallbackRow (embedding : Option (List ℝ)) (m : CandMap)
    (item : CandidateRow) : CandMap :=
  let sanitized := sanitizeEmbedding item.embedding
  mapSet m
    { id := item.id
      title_name := item.title_name
      summary := item.summary
      authors := item.authors
      pdf_url := item.pdf_url
      engagement_score := item.engagement_score
      cosine_similarity :=
        if sanitized.isSome && embedding.isSome then
          some (computeCosineSimilarity sanitized embedding)
        else none
      similarity := none
      bm25_rank := none
      field_match_bonus := none
      proper_noun_boost := none
      embedding := sanitized
      match_source := some srcFallback }

/-- The final backfill pass: a candidate still lacking a cosine similarity but
possessing both a stored embedding and a query embedding gets it computed
locally. -/
noncomputable def backfillRow (embedding : Option (List ℝ)) (row : CandidateRow) : CandidateRow :=
  if row.cosine_similarity = none ∧ row.embedding.isSome ∧ embedding.isSome then
    { row with cosine_similarity := some (computeCosineSimilarity row.embedding embedding) }
  else row

/-- Strategy two: merge the rows of the vector-only RPC into the (still
empty) candidate map, only when an embedding is present. -/
noncomputable def stage2Vector (p : QueryParams) (db : Backend) : CandMap :=
  if hasQueryEmbedding p.embedding then
    match db.rpcVector with
    | some rows => rows.foldl (mergeVectorRow p.embedding) []
    | none => []
  else []

/-- Strategy three: the vector fallback scan, run only when an embedding is
present and the candidate map is still empty. -/
noncomputable def stage3VectorFallback (p : QueryParams) (db : Backend) (m : CandMap) :
    CandMap :=
  if hasQueryEmbedding p.embedding && m.isEmpty then
    match db.vectorFallbackScan with
    | some rows => rows.foldl (vectorFallbackRow p.embedding) m
    | none => m
  else m

/-- Strategy four: the full-text search, falling back to the pattern match
when it errors, merged into the candidate map. -/
noncomputable def stage4Text (db : Backend) (m : CandMap) : CandMap :=
  match db.textSearch.orElse (fun _ => db.textPattern) with
  | some rows => rows.foldl textMergeRow m
  | none => m

/-- Strategy five: the plain fallback scan, run only when the candidate map is
still empty. -/
noncomputable def stage5Plain (p : QueryParams) (db : Backend) (m : CandMap) : CandMap :=
  if m.isEmpty then
    match db.plainScan with
    | some rows => rows.foldl (plainFallbackRow p.embedding) m
    | none => m
  else m

/-- Strategies two to five of the retriever plus the backfill pass, run when
the hybrid RPC did not short-circuit. -/
noncomputable def fallbackCascade (p : QueryParams) (db : Backend) : List CandidateRow :=
  let m4 := stage5Plain p db (stage4Text db (stage3VectorFallback p db (stage2Vector p db)))
  if hasQueryEmbedding p.embedding then m4.map (backfillRow p.embedding) else m4

/-- Strategy one of the retriever: when an embedding is present and the hybrid
RPC succeeds with at least one row, those rows are the final candidate set. -/
def rpcShortCircuit (p : QueryParams) (db : Backend) : Option (List CandidateRow) :=
  if hasQueryEmbedding p.embedding then
    match db.rpcSmart with
    | some rows => if rows.isEmpty then none else some (rows.map tagRpcRow)
    | none => none
  else none

/-- The candidate retriever (querySupabase). -/
noncomputable def querySupabase (p : QueryParams) (db : Backend) : List CandidateRow :=
  match rpcShortCircuit p db with
  | some rows => rows
  | none => fallbackCascade p db

/-- The query field of the request body: absent, present but not a string, or
a string value. -/
inductive QueryField where
  | missing
  | notAString
  | strVal (s : Str)

/-- An incoming request as seen by the handler; limitParam is the result of
Number applied to the limit query parameter (none models NaN or infinity). -/
structure SearchRequest where
  method : Str
  bodyQuery : QueryField
  limitParam : Option ℝ := none

/-- The responses the handler can produce; messages and headers are
abstracted, and the catch-all server error of the source is unreachable in
the pure model. -/
inductive HandlerResponse where
  | methodNotAllowed
  | badRequest
  | ok (results : List CombinedResult)

def postMethod : Str := ['P', 'O', 'S', 'T']

/-- The request handler: reject non-POST methods, reject a missing, non-string
or blank query, then run the pipeline (extraction, embedding, retrieval and
scoring, abstracted as the pipeline argument) on the trimmed query and the
effective limit. -/
noncomputable def handler (pipeline : Str → ℝ → List CombinedResult) (req : SearchRequest) :
    HandlerResponse :=
  if req.method ≠ postMethod then HandlerResponse.methodNotAllowed
  else
    match req.bodyQuery with
    | QueryField.strVal s =>
      if trimStr s = [] then HandlerResponse.badRequest
      else HandlerResponse.ok (pipeline (trimStr s) (effectiveLimit req.limitParam))
    | _ => HandlerResponse.badRequest

/-- The full pipeline for one invocation against a fixed backend and a fixed
embedding response. -/
noncomputable def smartSearchPipeline (db : Backend) (emb : Option (List ℝ)) (q : Str)
    (lim : ℝ) : List CombinedResult :=
  let properNouns := extractProperNouns q
  let rows := querySupabase
    { embedding := emb, query := q, properNouns := properNouns, limit := some lim } db
  combineScores rows { query := q, properNouns := properNouns, limit := some lim }

/- Verification section. -/

theorem clamp01_nonneg (x : ℝ) : 0 ≤ clamp01 x :=
  le_min (by norm_num) (le_max_left 0 x)

theorem clamp01_le_one (x : ℝ) : clamp01 x ≤ 1 := min_le_left 1 (max 0 x)

theorem normaliseCosine_mem (v : Option ℝ) :
    0 ≤ normaliseCosine v ∧ normaliseCosine v ≤ 1 := by
  match v with
  | none => simp [normaliseCosine]
  | some x =>
    simp only [normaliseCosine]
    by_cases h : max (-1) (min 1 x) ≤ 0
    · simp [h]
    · simp only [h, if_false]
      exact ⟨le_of_lt (not_le.mp h), max_le (by norm_num) (min_le_left 1 x)⟩

theorem normaliseBm25_mem (v : Option ℝ) :
    0 ≤ normaliseBm25 v ∧ normaliseBm25 v ≤ 1 := by
  match v with
  | none => simp [normaliseBm25]
  | some x =>
    simp only [normaliseBm25]
    have h0 : (0 : ℝ) ≤ max 0 x := le_max_left 0 x
    have h1 : (0 : ℝ) < max 0 x + 1 := by linarith
    exact ⟨div_nonneg h0 h1.le, by rw [div_le_one h1]; linarith⟩

theorem tanh_nonneg_of_nonneg {x : ℝ} (hx : 0 ≤ x) : 0 ≤ Real.tanh x := by
  rw [Real.tanh_eq_sinh_div_cosh]
  exact div_nonneg (Real.sinh_nonneg_iff.mpr hx) (Real.cosh_pos x).le

theorem normaliseEngagement_mem (v : Option ℝ) :
    0 ≤ normaliseEngagement v ∧ normaliseEngagement v ≤ 1 := by
  match v with
  | none => simp [normaliseEngagement]
  | some x =>
    simp only [normaliseEngagement]
    by_cases h : 1 < max 0 x
    · simp only [h, if_true]
      refine ⟨le_min (by norm_num) (tanh_nonneg_of_nonneg ?_), min_le_left 1 _⟩
      have : (0 : ℝ) ≤ max 0 x := le_max_left 0 x
      linarith
    · simp only [h, if_false]
      exact ⟨clamp01_nonneg _, clamp01_le_one _⟩

theorem computeBm25Score_mem (row : CandidateRow) (tokens : List Str) :
    0 ≤ computeBm25Score row tokens ∧ computeBm25Score row tokens ≤ 1 := by
  simp only [computeBm25Score]
  split
  · norm_num
  · split
    · norm_num
    · exact ⟨clamp01_nonneg _, clamp01_le_one _⟩

theorem computeFieldMatchBonus_mem (row : CandidateRow) (tokens : List Str) :
    0 ≤ computeFieldMatchBonus row tokens ∧ computeFieldMatchBonus row tokens ≤ 1 := by
  simp only [computeFieldMatchBonus]
  split
  · norm_num
  · exact ⟨clamp01_nonneg _, clamp01_le_one _⟩

theorem computeProperNounBoost_mem (row : CandidateRow) (nouns : List Str) :
    0 ≤ computeProperNounBoost row nouns ∧ computeProperNounBoost row nouns ≤ 1 := by
  simp only [computeProperNounBoost]
  split
  · norm_num
  · split
    · norm_num
    · split
      · norm_num
      · exact ⟨clamp01_nonneg _, clamp01_le_one _⟩

theorem vectorScoreOf_mem (row : CandidateRow) :
    0 ≤ vectorScoreOf row ∧ vectorScoreOf row ≤ 1 := normaliseCosine_mem _

theorem lexicalScoreOf_mem (qt : List Str) (row : CandidateRow) :
    0 ≤ lexicalScoreOf qt row ∧ lexicalScoreOf qt row ≤ 1 := by
  simp only [lexicalScoreOf]
  split
  · exact normaliseBm25_mem _
  · exact computeBm25Score_mem _ _

theorem properNounScoreOf_mem (ns : List Str) (row : CandidateRow) :
    0 ≤ properNounScoreOf ns row ∧ properNounScoreOf ns row ≤ 1 := by
  simp only [properNounScoreOf]
  match row.proper_noun_boost with
  | some v => exact ⟨clamp01_nonneg _, clamp01_le_one _⟩
  | none => exact computeProperNounBoost_mem _ _

theorem fieldBonusOf_mem (qt : List Str) (row : CandidateRow) :
    0 ≤ fieldBonusOf qt row ∧ fieldBonusOf qt row ≤ 1 := by
  simp only [fieldBonusOf]
  match row.field_match_bonus with
  | some v => exact ⟨clamp01_nonneg _, clamp01_le_one _⟩
  | none => exact computeFieldMatchBonus_mem _ _

theorem engagementOf_mem (row : CandidateRow) :
    0 ≤ engagementOf row ∧ engagementOf row ≤ 1 := normaliseEngagement_mem _

theorem totalScoreOf_mem (qt ns : List Str) (row : CandidateRow) :
    0 ≤ totalScoreOf qt ns row ∧ totalScoreOf qt ns row ≤ 1 := by
  obtain ⟨v0, v1⟩ := vectorScoreOf_mem row
  obtain ⟨l0, l1⟩ := lexicalScoreOf_mem qt row
  obtain ⟨p0, p1⟩ := properNounScoreOf_mem ns row
  obtain ⟨f0, f1⟩ := fieldBonusOf_mem qt row
  obtain ⟨e0, e1⟩ := engagementOf_mem row
  unfold totalScoreOf
  constructor <;> nlinarith

theorem round6_nonneg {x : ℝ} (hx : 0 ≤ x) : 0 ≤ round6 x := by
  unfold round6
  apply div_nonneg _ (by norm_num)
  have h : (0 : ℤ) ≤ round (x * 1000000) := by
    rw [round_eq]
    apply Int.floor_nonneg.mpr
    nlinarith
  exact_mod_cast h

theorem round6_le_one {x : ℝ} (hx : x ≤ 1) : round6 x ≤ 1 := by
  unfold round6
  rw [div_le_one (by norm_num)]
  have h1 : round (x * 1000000) ≤ round ((1000000 : ℝ)) := by
    rw [round_eq, round_eq]
    apply Int.floor_le_floor
    nlinarith
  have h2 : round ((1000000 : ℝ)) = 1000000 := by
    have hc : ((1000000 : ℤ) : ℝ) = (1000000 : ℝ) := by norm_num
    rw [← hc, round_intCast]
  have h3 : (round (x * 1000000) : ℤ) ≤ (1000000 : ℤ) := h2 ▸ h1
  calc ((round (x * 1000000) : ℤ) : ℝ) ≤ ((1000000 : ℤ) : ℝ) := by exact_mod_cast h3
    _ = 1000000 := by norm_num

/-- A result all of whose reported scores lie in the unit interval. -/
def goodResult (r : CombinedResult) : Prop :=
  0 ≤ r.finalScore ∧ r.finalScore ≤ 1 ∧
    0 ≤ r.breakdown.cosineSimilarity ∧ r.breakdown.cosineSimilarity ≤ 1 ∧
    0 ≤ r.breakdown.bm25Rank ∧ r.breakdown.bm25Rank ≤ 1 ∧
    0 ≤ r.breakdown.properNounBoost ∧ r.breakdown.properNounBoost ≤ 1 ∧
    0 ≤ r.breakdown.fieldMatchBonus ∧ r.breakdown.fieldMatchBonus ≤ 1 ∧
    0 ≤ r.breakdown.engagementScore ∧ r.breakdown.engagementScore ≤ 1

theorem scoreRow_good (qt ns : List Str) (row : CandidateRow) :
    goodResult (scoreRow qt ns row) := by
  obtain ⟨t0, t1⟩ := totalScoreOf_mem qt ns row
  obtain ⟨v0, v1⟩ := vectorScoreOf_mem row
  obtain ⟨l0, l1⟩ := lexicalScoreOf_mem qt row
  obtain ⟨p0, p1⟩ := properNounScoreOf_mem ns row
  obtain ⟨f0, f1⟩ := fieldBonusOf_mem qt row
  obtain ⟨e0, e1⟩ := engagementOf_mem row
  exact ⟨round6_nonneg t0, round6_le_one t1, round6_nonneg v0, round6_le_one v1,
    round6_nonneg l0, round6_le_one l1, round6_nonneg p0, round6_le_one p1,
    round6_nonneg f0, round6_le_one f1, round6_nonneg e0, round6_le_one e1⟩

theorem mem_combineScores {r : CombinedResult} {rows : List CandidateRow}
    {ctx : CombineContext} (h : r ∈ combineScores rows ctx) :
    ∃ row ∈ rows,
      r = scoreRow (dedupFirst (tokenize (some ctx.query))) (ctx.properNouns.map lowerStr) row := by
  simp only [combineScores, jsSliceZeroTo] at h
  have hsort : r ∈ List.insertionSort byScoreDesc
      (rows.map (scoreRow (dedupFirst (tokenize (some ctx.query)))
        (ctx.properNouns.map lowerStr))) := by
    split at h
    · exact List.take_subset _ _ h
    · exact List.take_subset _ _ h
  have hmem := (List.perm_insertionSort byScoreDesc _).mem_iff.mp hsort
  obtain ⟨row, hrow, heq⟩ := List.mem_map.mp hmem
  exact ⟨row, hrow, heq.symm⟩

/-- C1: for every candidate row passed to the scoring engine, each of the five
sub-scores in the returned breakdown and the composite final score are
(finite) real numbers lying in the unit interval. -/
theorem combineScores_all_scores_in_unit_interval (rows : List CandidateRow)
    (ctx : CombineContext) : List.Forall goodResult (combineScores rows ctx) := by
  rw [List.forall_iff_forall_mem]
  intro r hr
  obtain ⟨row, _, rfl⟩ := mem_combineScores hr
  exact scoreRow_good _ _ _

/-- C2: for every candidate row scored, the composite final score equals the
weighted sum of the five sub-scores with weights 0.45, 0.25, 0.15, 0.10 and
0.05, rounded to six decimal digits, and each breakdown sub-score is the
corresponding sub-score rounded to six decimal digits. -/
theorem scoreRow_weighted_composite (qt ns : List Str) (row : CandidateRow) :
    (scoreRow qt ns row).finalScore =
      round6 (0.45 * vectorScoreOf row + 0.25 * lexicalScoreOf qt row +
        0.15 * properNounScoreOf ns row + 0.10 * fieldBonusOf qt row +
        0.05 * engagementOf row) ∧
    (scoreRow qt ns row).breakdown.cosineSimilarity = round6 (vectorScoreOf row) ∧
    (scoreRow qt ns row).breakdown.bm25Rank = round6 (lexicalScoreOf qt row) ∧
    (scoreRow qt ns row).breakdown.properNounBoost = round6 (properNounScoreOf ns row) ∧
    (scoreRow qt ns row).breakdown.fieldMatchBonus = round6 (fieldBonusOf qt row) ∧
    (scoreRow qt ns row).breakdown.engagementScore = round6 (engagementOf row) :=
  ⟨rfl, rfl, rfl, rfl, rfl, rfl⟩

theorem effectiveLimit_pos (p : Option ℝ) : 0 < effectiveLimit p := by
  match p with
  | none => norm_num [effectiveLimit]
  | some v =>
    simp only [effectiveLimit]
    by_cases h : 0 < v
    · simp only [h, if_true]
      exact lt_min h (by norm_num)
    · simp [h]

/-- C5: the scoring engine output is sorted descending by final score and its
length never exceeds the effective limit; the effective limit is the limit
parameter clamped to at most fifty when it is a finite positive number and
twenty otherwise, so a requested limit of one hundred yields fifty. -/
theorem combineScores_sorted_and_limited (rows : List CandidateRow) (q : Str)
    (ns : List Str) (p : Option ℝ) :
    List.Sorted byScoreDesc
      (combineScores rows { query := q, properNouns := ns, limit := some (effectiveLimit p) }) ∧
    ((combineScores rows
        { query := q, properNouns := ns, limit := some (effectiveLimit p) }).length : ℝ) ≤
      effectiveLimit p ∧
    effectiveLimit (some 100) = 50 ∧
    effectiveLimit none = 20 ∧
    (∀ x : ℝ, effectiveLimit (some x) = if 0 < x then min x 50 else 20) := by
  have hpos := effectiveLimit_pos p
  refine ⟨?_, ?_, ?_, ?_, fun x => rfl⟩
  · simp only [combineScores, jsSliceZeroTo, Option.getD_some]
    have hs := List.sorted_insertionSort byScoreDesc
      (rows.map (scoreRow (dedupFirst (tokenize (some q))) (ns.map lowerStr)))
    split
    · exact hs.sublist (List.take_sublist _ _)
    · exact hs.sublist (List.take_sublist _ _)
  · simp only [combineScores, jsSliceZeroTo, Option.getD_some, if_pos hpos.le]
    set l := List.insertionSort byScoreDesc
      (rows.map (scoreRow (dedupFirst (tokenize (some q))) (ns.map lowerStr)))
    have hlen : (l.take ⌊effectiveLimit p⌋₊).length ≤ ⌊effectiveLimit p⌋₊ := by
      rw [List.length_take]
      exact min_le_left _ _
    calc ((l.take ⌊effectiveLimit p⌋₊).length : ℝ)
        ≤ (⌊effectiveLimit p⌋₊ : ℝ) := by exact_mod_cast hlen
      _ ≤ effectiveLimit p := Nat.floor_le hpos.le
  · simp only [effectiveLimit]
    rw [if_pos (by norm_num : (0 : ℝ) < 100)]
    exact min_eq_right (by norm_num)
  · rfl

/-- A request whose body query is missing, not a string, or blank after
trimming. -/
def badQuery (req : SearchRequest) : Prop :=
  match req.bodyQuery with
  | QueryField.strVal s => trimStr s = []
  | _ => True

/-- C9: the handler answers non-POST requests with method-not-allowed and
requests with a missing, non-string or blank query with a client error, and
in both cases the response is independent of the pipeline, so no extraction,
embedding, retrieval or scoring is executed. -/
theorem handler_rejects_before_pipeline :
    (∀ pl req, req.method ≠ postMethod → handler pl req = HandlerResponse.methodNotAllowed) ∧
    (∀ pl req, req.method = postMethod → badQuery req →
      handler pl req = HandlerResponse.badRequest) ∧
    (∀ pl pl2 req, req.method ≠ postMethod ∨ badQuery req →
      handler pl req = handler pl2 req) := by
  have h1 : ∀ pl req, req.method ≠ postMethod →
      handler pl req = HandlerResponse.methodNotAllowed := by
    intro pl req h
    simp [handler, h]
  have h2 : ∀ pl req, req.method = postMethod → badQuery req →
      handler pl req = HandlerResponse.badRequest := by
    intro pl req hm hb
    simp only [handler, hm, ne_eq, not_true_eq_false, if_false]
    match hq : req.bodyQuery with
    | QueryField.missing => rfl
    | QueryField.notAString => rfl
    | QueryField.strVal s =>
      have hs : trimStr s = [] := by
        have := hb
        unfold badQuery at this
        rw [hq] at this
        exact this
      simp [hs]
  refine ⟨h1, h2, ?_⟩
  intro pl pl2 req h
  rcases h with h | h
  · rw [h1 pl req h, h1 pl2 req h]
  · by_cases hm : req.method = postMethod
    · rw [h2 pl req hm h, h2 pl2 req hm h]
    · rw [h1 pl req hm, h1 pl2 req hm]

def pipelineEmpty : Str → ℝ → List CombinedResult := fun _ _ => []

noncomputable def resultStub : CombinedResult :=
  { id := 1
    title_name := []
    authors := []
    summary := []
    pdf_url := []
    finalScore := 0
    breakdown :=
      { cosineSimilarity := 0
        bm25Rank := 0
        properNounBoost := 0
        fieldMatchBonus := 0
        engagementScore := 0 } }

noncomputable def pipelineOne : Str → ℝ → List CombinedResult := fun _ _ => [resultStub]

def reqWrongMethod : SearchRequest :=
  { method := ['G', 'E', 'T'], bodyQuery := QueryField.missing, limitParam := none }

def reqBlankQuery : SearchRequest :=
  { method := postMethod, bodyQuery := QueryField.strVal [' '], limitParam := none }

theorem handler_rejects_before_pipeline_witness :
    handler pipelineEmpty reqWrongMethod = HandlerResponse.methodNotAllowed ∧
    handler pipelineEmpty reqBlankQuery = HandlerResponse.badRequest ∧
    handler pipelineEmpty reqWrongMethod = handler pipelineOne reqWrongMethod :=
  ⟨handler_rejects_before_pipeline.1 pipelineEmpty reqWrongMethod (by decide),
   handler_rejects_before_pipeline.2.1 pipelineEmpty reqBlankQuery rfl
     (show trimStr [' '] = [] by decide),
   handler_rejects_before_pipeline.2.2 pipelineEmpty pipelineOne reqWrongMethod
     (Or.inl (by decide))⟩

/-- C10: the cosine-similarity helper returns zero whenever the inputs are not
two non-empty equal-length vectors, and whenever either vector has zero
squared norm; it never divides by zero. -/
theorem computeCosineSimilarity_total_safe :
    (∀ a b : Option (List ℝ),
      (match a, b with
       | some la, some lb => la = [] ∨ lb = [] ∨ la.length ≠ lb.length
       | _, _ => True) →
      computeCosineSimilarity a b = 0) ∧
    (∀ la lb : List ℝ,
      (la.map (fun x => x * x)).sum = 0 ∨ (lb.map (fun x => x * x)).sum = 0 →
      computeCosineSimilarity (some la) (some lb) = 0) := by
  constructor
  · intro a b h
    match a, b with
    | none, none => rfl
    | none, some _ => rfl
    | some _, none => rfl
    | some la, some lb =>
      simp only [computeCosineSimilarity]
      rw [if_pos h]
  · intro la lb h
    simp only [computeCosineSimilarity]
    by_cases hv : la = [] ∨ lb = [] ∨ la.length ≠ lb.length
    · rw [if_pos hv]
    · rw [if_neg hv, if_pos h]

theorem computeCosineSimilarity_total_safe_witness :
    computeCosineSimilarity none (some [(1 : ℝ)]) = 0 ∧
    computeCosineSimilarity (some [(0 : ℝ)]) (some [(1 : ℝ)]) = 0 :=
  ⟨computeCosineSimilarity_total_safe.1 none (some [(1 : ℝ)]) trivial,
   computeCosineSimilarity_total_safe.2 [(0 : ℝ)] [(1 : ℝ)] (Or.inl (by norm_num))⟩

/-- A candidate list with pairwise-distinct record identifiers. -/
def idsDistinct (l : List CandidateRow) : Prop := l.Pairwise (fun a b => a.id ≠ b.id)

theorem mapSet_idsDistinct (m : CandMap) (row : CandidateRow) (h : idsDistinct m) :
    idsDistinct (mapSet m row) := by
  unfold mapSet
  split
  · rename_i hany
    have hid : ∀ r : CandidateRow, (if r.id == row.id then row else r).id = r.id := by
      intro r
      split
      · rename_i heq
        exact (eq_of_beq heq).symm
      · rfl
    rw [idsDistinct, List.pairwise_map]
    exact h.imp (fun {a b} hab => by rw [hid a, hid b]; exact hab)
  · rename_i hany
    rw [idsDistinct, List.pairwise_append]
    refine ⟨h, List.pairwise_singleton _ _, ?_⟩
    intro a ha b hb heq
    rw [List.mem_singleton] at hb
    subst hb
    apply hany
    rw [List.any_eq_true]
    exact ⟨a, ha, by simp [heq]⟩

theorem foldl_idsDistinct {f : CandMap → CandidateRow → CandMap}
    (hf : ∀ m it, idsDistinct m → idsDistinct (f m it)) :
    ∀ (l : List CandidateRow) (m : CandMap), idsDistinct m → idsDistinct (l.foldl f m) := by
  intro l
  induction l with
  | nil => intro m h; exact h
  | cons a t ih => intro m h; exact ih _ (hf m a h)

theorem mergeVectorRow_idsDistinct (e : Option (List ℝ)) (m : CandMap) (it : CandidateRow)
    (h : idsDistinct m) : idsDistinct (mergeVectorRow e m it) := by
  simp only [mergeVectorRow]
  exact mapSet_idsDistinct _ _ h

theorem vectorFallbackRow_idsDistinct (e : Option (List ℝ)) (m : CandMap) (it : CandidateRow)
    (h : idsDistinct m) : idsDistinct (vectorFallbackRow e m it) := by
  simp only [vectorFallbackRow]
  exact mapSet_idsDistinct _ _ h

theorem textMergeRow_idsDistinct (m : CandMap) (it : CandidateRow)
    (h : idsDistinct m) : idsDistinct (textMergeRow m it) := by
  simp only [textMergeRow]
  exact mapSet_idsDistinct _ _ h

theorem plainFallbackRow_idsDistinct (e : Option (List ℝ)) (m : CandMap) (it : CandidateRow)
    (h : idsDistinct m) : idsDistinct (plainFallbackRow e m it) := by
  simp only [plainFallbackRow]
  exact mapSet_idsDistinct _ _ h

theorem stage2Vector_idsDistinct (p : QueryParams) (db : Backend) :
    idsDistinct (stage2Vector p db) := by
  unfold stage2Vector
  split
  · match db.rpcVector with
    | some rows => exact foldl_idsDistinct (mergeVectorRow_idsDistinct p.embedding) rows [] List.Pairwise.nil
    | none => exact List.Pairwise.nil
  · exact List.Pairwise.nil

theorem stage3VectorFallback_idsDistinct (p : QueryParams) (db : Backend) (m : CandMap)
    (h : idsDistinct m) : idsDistinct (stage3VectorFallback p db m) := by
  unfold stage3VectorFallback
  split
  · match db.vectorFallbackScan with
    | some rows => exact foldl_idsDistinct (vectorFallbackRow_idsDistinct p.embedding) rows m h
    | none => exact h
  · exact h

theorem stage4Text_idsDistinct (db : Backend) (m : CandMap)
    (h : idsDistinct m) : idsDistinct (stage4Text db m) := by
  unfold stage4Text
  match db.textSearch.orElse (fun _ => db.textPattern) with
  | some rows => exact foldl_idsDistinct textMergeRow_idsDistinct rows m h
  | none => exact h

theorem stage5Plain_idsDistinct (p : QueryParams) (db : Backend) (m : CandMap)
    (h : idsDistinct m) : idsDistinct (stage5Plain p db m) := by
  unfold stage5Plain
  split
  · match db.plainScan with
    | some rows => exact foldl_idsDistinct (plainFallbackRow_idsDistinct p.embedding) rows m h
    | none => exact h
  · exact h

theorem backfillRow_id (e : Option (List ℝ)) (row : CandidateRow) :
    (backfillRow e row).id = row.id := by
  unfold backfillRow
  split
  · rfl
  · rfl

theorem fallbackCascade_idsDistinct (p : QueryParams) (db : Backend) :
    idsDistinct (fallbackCascade p db) := by
  unfold fallbackCascade
  have h4 : idsDistinct (stage5Plain p db (stage4Text db
      (stage3VectorFallback p db (stage2Vector p db)))) :=
    stage5Plain_idsDistinct p db _ (stage4Text_idsDistinct db _
      (stage3VectorFallback_idsDistinct p db _ (stage2Vector_idsDistinct p db)))
  split
  · rw [idsDistinct, List.pairwise_map]
    exact h4.imp (fun {a b} hab => by rw [backfillRow_id, backfillRow_id]; exact hab)
  · exact h4

/-- C3 counterexample: when the hybrid RPC short-circuits, a returned row that
already carries a provenance tag keeps it, so not every row of the final
candidate set is tagged rpc as the claim states. -/
noncomputable def paramsEmb : QueryParams :=
  { embedding := some [1], query := [], properNouns := [] }

noncomputable def rowTagged : CandidateRow :=
  { id := 3, match_source := some ['c', 'u', 's', 't', 'o', 'm'] }

noncomputable def dbTagged : Backend := { rpcSmart := some [rowTagged] }

theorem rpc_provenance_not_always_rpc :
    ¬ List.Forall (fun r => r.match_source = some srcRpc)
      (querySupabase paramsEmb dbTagged) := by
  intro h
  have h1 : querySupabase paramsEmb dbTagged = [tagRpcRow rowTagged] := by
    simp [querySupabase, rpcShortCircuit, hasQueryEmbedding, paramsEmb, dbTagged]
  rw [h1] at h
  simp only [List.Forall] at h
  simp only [tagRpcRow, rowTagged, srcRpc] at h
  exact absurd (Option.some.inj h) (by decide)

/-- C3 amended: with an embedding present, a successful hybrid RPC returning
at least one row short-circuits the retriever, and those rows (with absent
provenance defaulted to rpc, an existing tag being preserved) are the final
candidate set; a failed RPC or one returning zero rows falls through to the
remaining strategy cascade. -/
theorem querySupabase_rpc_short_circuit :
    (∀ (p : QueryParams) (db : Backend) (rows : List CandidateRow),
      hasQueryEmbedding p.embedding = true → db.rpcSmart = some rows → rows ≠ [] →
      querySupabase p db = rows.map tagRpcRow) ∧
    (∀ (p : QueryParams) (db : Backend),
      hasQueryEmbedding p.embedding = true →
      (db.rpcSmart = none ∨ db.rpcSmart = some []) →
      querySupabase p db = fallbackCascade p db) := by
  constructor
  · intro p db rows he hr hne
    have hsc : rpcShortCircuit p db = some (rows.map tagRpcRow) := by
      simp only [rpcShortCircuit, he, if_true, hr]
      rw [if_neg]
      simp [List.isEmpty_iff, hne]
    simp [querySupabase, hsc]
  · intro p db he hr
    have hsc : rpcShortCircuit p db = none := by
      rcases hr with hr | hr
      · simp [rpcShortCircuit, he, hr]
      · simp [rpcShortCircuit, he, hr]
    simp [querySupabase, hsc]

noncomputable def rowSeven : CandidateRow := { id := 7 }

noncomputable def dbRpcRows : Backend := { rpcSmart := some [rowSeven] }

noncomputable def dbRpcEmptyRows : Backend := { rpcSmart := some [] }

theorem querySupabase_rpc_short_circuit_witness :
    querySupabase paramsEmb dbRpcRows = [rowSeven].map tagRpcRow ∧
    querySupabase paramsEmb dbRpcEmptyRows = fallbackCascade paramsEmb dbRpcEmptyRows :=
  ⟨querySupabase_rpc_short_circuit.1 paramsEmb dbRpcRows [rowSeven]
      (by simp [paramsEmb, hasQueryEmbedding]) rfl (by simp),
   querySupabase_rpc_short_circuit.2 paramsEmb dbRpcEmptyRows
      (by simp [paramsEmb, hasQueryEmbedding]) (Or.inr rfl)⟩

/-- C8 counterexample: when the hybrid RPC short-circuits, its rows are
returned verbatim, so duplicate identifiers coming back from the RPC are not
deduplicated. -/
noncomputable def dbDupRpc : Backend := { rpcSmart := some [rowSeven, rowSeven] }

theorem querySupabase_short_circuit_no_dedup :
    ¬ idsDistinct (querySupabase paramsEmb dbDupRpc) := by
  intro h
  have h1 : querySupabase paramsEmb dbDupRpc = [tagRpcRow rowSeven, tagRpcRow rowSeven] := by
    simp [querySupabase, rpcShortCircuit, hasQueryEmbedding, paramsEmb, dbDupRpc]
  rw [h1] at h
  rw [idsDistinct, List.pairwise_cons] at h
  exact absurd rfl (h.1 (tagRpcRow rowSeven) (by simp))

/-- C8 amended: whenever the hybrid RPC does not short-circuit, the candidate
set assembled by merging strategies two to five is deduplicated by record
identifier; on the short-circuit path the RPC rows are returned as given, so
uniqueness holds there exactly when the RPC rows already have distinct
identifiers. -/
theorem querySupabase_ids_distinct :
    (∀ (p : QueryParams) (db : Backend),
      rpcShortCircuit p db = none → idsDistinct (querySupabase p db)) ∧
    (∀ (p : QueryParams) (db : Backend) (rows : List CandidateRow),
      rpcShortCircuit p db = some rows → idsDistinct rows →
      idsDistinct (querySupabase p db)) := by
  constructor
  · intro p db h
    have : querySupabase p db = fallbackCascade p db := by simp [querySupabase, h]
    rw [this]
    exact fallbackCascade_idsDistinct p db
  · intro p db rows h hrows
    have : querySupabase p db = rows := by simp [querySupabase, h]
    rw [this]
    exact hrows

noncomputable def paramsNoEmb : QueryParams :=
  { embedding := none, query := [], properNouns := [] }

noncomputable def dbAllFail : Backend := {}

theorem querySupabase_ids_distinct_witness :
    idsDistinct (querySupabase paramsNoEmb dbAllFail) ∧
    idsDistinct (querySupabase paramsEmb dbRpcRows) :=
  ⟨querySupabase_ids_distinct.1 paramsNoEmb dbAllFail rfl,
   querySupabase_ids_distinct.2 paramsEmb dbRpcRows ([rowSeven].map tagRpcRow)
      (by simp [rpcShortCircuit, hasQueryEmbedding, paramsEmb, dbRpcRows])
      (by simp [idsDistinct])⟩

theorem round6_zero : round6 0 = 0 := by
  unfold round6
  have h : (0 : ℝ) * 1000000 = 0 := by norm_num
  rw [h, round_zero]
  norm_num

theorem round6_one : round6 1 = 1 := by
  unfold round6
  have h : (1 : ℝ) * 1000000 = ((1000000 : ℤ) : ℝ) := by norm_num
  rw [h, round_intCast]
  norm_num

def qHello : Str := ['h', 'e', 'l', 'l', 'o']

/-- C4 counterexample row: it carries the present, non-null precomputed rank
zero, whose normalisation is zero, so the scoring engine recomputes the
lexical score from the title text instead of using it. -/
noncomputable def rowBm25Zero : CandidateRow :=
  { id := 1, title_name := some qHello, bm25_rank := some 0 }

theorem bm25_zero_precomputed_ignored :
    (scoreRow (dedupFirst (tokenize (some qHello))) [] rowBm25Zero).breakdown.bm25Rank ≠
      normaliseBm25 rowBm25Zero.bm25_rank := by
  have htok : dedupFirst (tokenize (some qHello)) = [qHello] := by decide
  have hz : normaliseBm25 (some (0 : ℝ)) = 0 := by
    simp only [normaliseBm25, max_self]
    norm_num
  have hfil : (([qHello] : List Str).filter
      (fun t => decide (t ∈ ([qHello] : List Str)))).length = 1 := by decide
  have hstep1 : bm25Fold [qHello] ((0 : ℝ), (0 : ℝ)) (some qHello, 1.8) = (1.8, 1.8) := by
    simp only [bm25Fold]
    rw [if_neg (by decide : ¬qHello = [])]
    rw [show tokenize (some qHello) = [qHello] from by decide]
    rw [if_neg (by decide : ¬([qHello] : List Str) = [])]
    rw [hfil]
    rw [if_neg (by norm_num : ¬(1 : ℕ) = 0)]
    have hlp : Real.logb 2 ((([qHello] : List Str).length : ℝ) + 1) = 1 := by
      have h2 : ((([qHello] : List Str).length : ℝ)) + 1 = 2 := by
        norm_num [List.length_singleton]
      rw [h2]
      exact Real.logb_self_eq_one (by norm_num)
    rw [hlp]
    rw [if_neg (by norm_num : ¬(1 : ℝ) = 0)]
    norm_num
  have hstep2 : bm25Fold [qHello] ((1.8 : ℝ), (1.8 : ℝ)) ((none : Option Str), 1.2) =
      (1.8, 1.8) := rfl
  have hstep3 : bm25Fold [qHello] ((1.8 : ℝ), (1.8 : ℝ)) ((none : Option Str), 0.8) =
      (1.8, 1.8) := rfl
  have hcomp : computeBm25Score rowBm25Zero [qHello] = 1 := by
    simp only [computeBm25Score, rowBm25Zero]
    rw [if_neg (by decide : ¬([qHello] : List Str) = [])]
    simp only [List.foldl_cons, List.foldl_nil]
    rw [hstep1, hstep2, hstep3]
    rw [if_neg (by norm_num : ¬(1.8 : ℝ) = 0)]
    have hdiv : ((1.8 : ℝ) / 1.8) * 1.5 = 1.5 := by norm_num
    rw [hdiv]
    unfold clamp01
    rw [max_eq_right (by norm_num : (0 : ℝ) ≤ 1.5)]
    rw [min_eq_left (by norm_num : (1 : ℝ) ≤ 1.5)]
  rw [htok]
  show round6 (lexicalScoreOf [qHello] rowBm25Zero) ≠ normaliseBm25 rowBm25Zero.bm25_rank
  have hlex : lexicalScoreOf [qHello] rowBm25Zero = 1 := by
    simp only [lexicalScoreOf, rowBm25Zero]
    rw [hz]
    rw [if_neg (by norm_num : ¬(0 : ℝ) < 0)]
    exact hcomp
  rw [hlex, round6_one]
  rw [show rowBm25Zero.bm25_rank = some 0 from rfl, hz]
  norm_num

/-- C4 amended: a precomputed bm25 rank is used (normalized via x over x plus
one) exactly when that normalisation is positive, that is when the rank is
positive; a rank normalising to zero is recomputed from the row text.  A
present, non-null precomputed proper-noun boost or field-match bonus is always
used clamped, never recomputed. -/
theorem precomputed_subscores_used (qt ns : List Str) (row : CandidateRow) :
    (∀ b : ℝ, row.bm25_rank = some b → 0 < b →
      (scoreRow qt ns row).breakdown.bm25Rank = round6 (normaliseBm25 (some b))) ∧
    (∀ x : ℝ, row.proper_noun_boost = some x →
      (scoreRow qt ns row).breakdown.properNounBoost = round6 (clamp01 x)) ∧
    (∀ x : ℝ, row.field_match_bonus = some x →
      (scoreRow qt ns row).breakdown.fieldMatchBonus = round6 (clamp01 x)) := by
  refine ⟨?_, ?_, ?_⟩
  · intro b hb hpos
    have hpos2 : 0 < normaliseBm25 (some b) := by
      simp only [normaliseBm25]
      rw [max_eq_right hpos.le]
      exact div_pos hpos (by linarith)
    show round6 (lexicalScoreOf qt row) = round6 (normaliseBm25 (some b))
    simp only [lexicalScoreOf, hb]
    rw [if_pos hpos2]
  · intro x hx
    show round6 (properNounScoreOf ns row) = round6 (clamp01 x)
    simp only [properNounScoreOf, hx]
  · intro x hx
    show round6 (fieldBonusOf qt row) = round6 (clamp01 x)
    simp only [fieldBonusOf, hx]

noncomputable def rowPrecomputed : CandidateRow :=
  { id := 2, bm25_rank := some 2, proper_noun_boost := some 0.5,
    field_match_bonus := some 0.25 }

theorem precomputed_subscores_used_witness :
    (scoreRow [] [] rowPrecomputed).breakdown.bm25Rank = round6 (normaliseBm25 (some 2)) ∧
    (scoreRow [] [] rowPrecomputed).breakdown.properNounBoost = round6 (clamp01 0.5) ∧
    (scoreRow [] [] rowPrecomputed).breakdown.fieldMatchBonus = round6 (clamp01 0.25) :=
  ⟨(precomputed_subscores_used [] [] rowPrecomputed).1 2 rfl (by norm_num),
   (precomputed_subscores_used [] [] rowPrecomputed).2.1 0.5 rfl,
   (precomputed_subscores_used [] [] rowPrecomputed).2.2 0.25 rfl⟩

/-- C7 amended: in an invocation whose context carries no proper nouns, every
candidate whose precomputed proper-noun boost is null scores zero on the
proper-noun dimension. -/
theorem zero_proper_nouns_zero_unless_precomputed (rows : List CandidateRow) (q : Str)
    (lim : Option ℝ) (h : ∀ row ∈ rows, row.proper_noun_boost = none) :
    List.Forall (fun r => r.breakdown.properNounBoost = 0)
      (combineScores rows { query := q, properNouns := [], limit := lim }) := by
  rw [List.forall_iff_forall_mem]
  intro r hr
  obtain ⟨row, hrow, rfl⟩ := mem_combineScores hr
  have hb := h row hrow
  show round6 (properNounScoreOf _ row) = 0
  simp only [properNounScoreOf, hb, List.map_nil]
  rw [show computeProperNounBoost row [] = 0 from by simp [computeProperNounBoost]]
  exact round6_zero

noncomputable def rowNoBoost : CandidateRow := { id := 4 }

theorem zero_proper_nouns_zero_unless_precomputed_witness :
    List.Forall (fun r => r.breakdown.properNounBoost = 0)
      (combineScores [rowNoBoost] { query := [], properNouns := [], limit := none }) :=
  zero_proper_nouns_zero_unless_precomputed [rowNoBoost] [] none (by
    intro row hrow
    rw [List.mem_singleton] at hrow
    subst hrow
    rfl)

/-- C7 counterexample row: a candidate carrying a non-null precomputed
proper-noun boost of one keeps it even though the invocation extracted zero
proper nouns. -/
noncomputable def rowBoostOne : CandidateRow := { id := 5, proper_noun_boost := some 1 }

theorem precomputed_boost_nonzero_with_no_nouns :
    ¬ List.Forall (fun r => r.breakdown.properNounBoost = 0)
      (combineScores [rowBoostOne] { query := [], properNouns := [], limit := some 20 }) := by
  intro h
  have h1 : combineScores [rowBoostOne] { query := [], properNouns := [], limit := some 20 } =
      [scoreRow [] [] rowBoostOne] := by
    simp only [combineScores, Option.getD_some]
    rw [show dedupFirst (tokenize (some ([] : Str))) = [] from by decide]
    simp only [List.map_nil, List.map_cons]
    rw [show List.insertionSort byScoreDesc [scoreRow [] [] rowBoostOne] =
        [scoreRow [] [] rowBoostOne] from by
      simp [List.insertionSort, List.orderedInsert]]
    simp only [jsSliceZeroTo]
    rw [if_pos (by norm_num : (0 : ℝ) ≤ 20)]
    rw [List.take_of_length_le (by rw [Nat.floor_ofNat]; simp)]
  rw [h1] at h
  simp only [List.Forall] at h
  have h2 : (scoreRow [] [] rowBoostOne).breakdown.properNounBoost = 1 := by
    show round6 (properNounScoreOf [] rowBoostOne) = 1
    simp only [properNounScoreOf, rowBoostOne]
    rw [show clamp01 1 = 1 from by
      unfold clamp01
      rw [max_eq_right (by norm_num : (0 : ℝ) ≤ 1), min_self]]
    exact round6_one
  rw [h2] at h
  norm_num at h

theorem dedupByLower_congr {s1 s2 : List Str} (h : ∀ x, x ∈ s1 ↔ x ∈ s2) :
    ∀ l, dedupByLower s1 l = dedupByLower s2 l := by
  intro l
  induction l generalizing s1 s2 with
  | nil => rfl
  | cons t rest ih =>
    simp only [dedupByLower]
    by_cases hm : lowerStr t ∈ s1
    · rw [if_pos hm, if_pos ((h _).mp hm)]
      exact ih h
    · rw [if_neg hm, if_neg (fun hx => hm ((h _).mpr hx))]
      congr 1
      exact ih (fun x => by simp only [List.mem_cons]; exact or_congr Iff.rfl (h x))

theorem extract_fold_spec (ms : List Str) :
    ∀ acc : List (Str × Str),
      ((ms.foldl extractStep acc).map Prod.snd) =
        acc.map Prod.snd ++
          dedupByLower (acc.map Prod.fst)
            ((ms.map trimStr).filter (fun t => decide (¬(t = [] ∨ t ∈ stopWords)))) := by
  induction ms with
  | nil => intro acc; simp [dedupByLower]
  | cons m rest ih =>
    intro acc
    simp only [List.foldl_cons, List.map_cons, List.filter_cons]
    by_cases hgood : trimStr m = [] ∨ trimStr m ∈ stopWords
    · have hstep : extractStep acc m = acc := by
        simp only [extractStep]
        rw [if_pos hgood]
      rw [hstep]
      have hfil : decide (¬(trimStr m = [] ∨ trimStr m ∈ stopWords)) = false := by
        simp [hgood]
      rw [hfil]
      simp only [Bool.false_eq_true, if_false]
      exact ih acc
    · have hfil : decide (¬(trimStr m = [] ∨ trimStr m ∈ stopWords)) = true := by
        simp [hgood]
      rw [hfil]
      simp only [if_true]
      by_cases hseen : lowerStr (trimStr m) ∈ acc.map Prod.fst
      · have hstep : extractStep acc m = acc := by
          simp only [extractStep]
          rw [if_neg hgood, if_pos hseen]
        rw [hstep, ih acc]
        congr 1
        conv_rhs => rw [dedupByLower]
        rw [if_pos hseen]
      · have hstep : extractStep acc m = acc ++ [(lowerStr (trimStr m), trimStr m)] := by
          simp only [extractStep]
          rw [if_neg hgood, if_neg hseen]
        rw [hstep, ih (acc ++ [(lowerStr (trimStr m), trimStr m)])]
        simp only [List.map_append, List.map_cons, List.map_nil]
        conv_rhs => rw [dedupByLower]
        rw [if_neg hseen]
        rw [List.append_assoc]
        congr 1
        simp only [List.singleton_append]
        congr 1
        apply dedupByLower_congr
        intro x
        simp [List.mem_append, List.mem_cons, or_comm]

/-- C6: the proper-noun extractor returns exactly the specification pipeline:
the capitalized-run matches in first-occurrence order, trimmed, with
case-sensitive stop words discarded, deduplicated by lowercase form keeping
the first-seen casing; the empty input yields the empty list and no input
fails. -/
theorem extractProperNouns_matches_spec :
    (∀ input : Str, extractProperNouns input = specProperNouns input) ∧
    extractProperNouns [] = [] := by
  constructor
  · intro input
    unfold extractProperNouns specProperNouns
    have h := extract_fold_spec (scanMatches input) []
    simpa using h
  · simp [extractProperNouns, scanMatches, scanOut]
